import Mathlib

/-!
Shallow embedding of the termo_type typing-test core, translated from the
Rust sources:
  * `src/test/input.rs`   — `CharState`, `WordState` and its operations
  * `src/test/engine.rs`  — `TestState`, `TestMode`, `TestEngine`
  * `src/test/metrics.rs` — wpm / cpm / accuracy calculations
  * `src/test/words.rs`   — word-sequence generation
  * `src/profile/models.rs` — `BestScore`, `Profile`

Rust `String` targets are modelled as `List Char` (sequences of Unicode
scalar values, matching Rust `char` iteration via `.chars()`).  Rust `f64`
quantities (elapsed seconds, wpm, cpm, accuracy) are modelled as `ℚ`;
`Instant::now()` is modelled by passing an explicit `now : ℚ` argument to
every operation that reads the clock.  Vec indexing/assignment is modelled
with `List.set` / `l[i]?`.
-/

/-- Rust `CharState` from input.rs: state of a single character during typing. -/
inductive CharState where
  | Untyped
  | Correct
  | Incorrect
deriving DecidableEq, Repr

/-- Rust `WordState` from input.rs: the state of a word being typed. -/
structure WordState where
  target : List Char
  char_states : List CharState
  cursor_pos : Nat
deriving DecidableEq, Repr

/-- Rust `WordState::new`: one `Untyped` entry per Unicode code point, cursor 0. -/
def WordState.new (target : List Char) : WordState :=
  { target := target
    char_states := List.replicate target.length CharState.Untyped
    cursor_pos := 0 }

/-- Rust `WordState::add_char`: returns the updated state and whether the
keystroke was consumed (Rust mutates in place and returns `bool`). -/
def WordState.add_char (ws : WordState) (ch : Char) : WordState × Bool :=
  if ws.cursor_pos ≥ ws.char_states.length then
    (ws, false)
  else
    match ws.target[ws.cursor_pos]? with
    | some expected =>
        let st := if ch = expected then CharState.Correct else CharState.Incorrect
        ({ ws with
            char_states := ws.char_states.set ws.cursor_pos st
            cursor_pos := ws.cursor_pos + 1 }, true)
    | none => (ws, false)

/-- Rust `WordState::remove_char` (backspace). -/
def WordState.remove_char (ws : WordState) : WordState × Bool :=
  if ws.cursor_pos > 0 then
    ({ ws with
        cursor_pos := ws.cursor_pos - 1
        char_states := ws.char_states.set (ws.cursor_pos - 1) CharState.Untyped }, true)
  else
    (ws, false)

/-- Rust `WordState::is_complete`. -/
def WordState.is_complete (ws : WordState) : Bool :=
  ws.cursor_pos ≥ ws.char_states.length

/-- Rust `WordState::has_errors`. -/
def WordState.has_errors (ws : WordState) : Bool :=
  ws.char_states.any (fun s => s == CharState.Incorrect)

/-- Rust `WordState::correct_count`. -/
def WordState.correct_count (ws : WordState) : Nat :=
  ws.char_states.countP (fun s => s == CharState.Correct)

/-- Rust `WordState::incorrect_count`. -/
def WordState.incorrect_count (ws : WordState) : Nat :=
  ws.char_states.countP (fun s => s == CharState.Incorrect)

/-- A single mutation of a `WordState`: either an `add_char` keystroke or a
`remove_char` backspace. -/
inductive WsOp where
  | add (ch : Char)
  | remove
deriving DecidableEq, Repr

/-- Apply one operation, discarding the consumed flag (as engine callers do). -/
def WordState.applyOp (ws : WordState) : WsOp → WordState
  | WsOp.add ch => (ws.add_char ch).1
  | WsOp.remove => ws.remove_char.1

/-- Apply a sequence of add/remove operations in order. -/
def WordState.applyOps (ws : WordState) (ops : List WsOp) : WordState :=
  ops.foldl WordState.applyOp ws

/-- Structural invariant of reachable `WordState`s: the char-state array has
one entry per target code point, the cursor is in bounds, entries below the
cursor are typed (Correct or Incorrect), entries at or above are Untyped. -/
def WordState.Inv (ws : WordState) : Prop :=
  ws.char_states.length = ws.target.length ∧
  ws.cursor_pos ≤ ws.char_states.length ∧
  (∀ i, i < ws.cursor_pos →
    ws.char_states[i]? = some CharState.Correct ∨
    ws.char_states[i]? = some CharState.Incorrect) ∧
  (∀ i, ws.cursor_pos ≤ i → i < ws.char_states.length →
    ws.char_states[i]? = some CharState.Untyped)

lemma WordState.inv_new (target : List Char) : (WordState.new target).Inv := by
  refine ⟨by simp [WordState.new], by simp [WordState.new], ?_, ?_⟩
  · intro i hi
    exact absurd hi (by simp [WordState.new])
  · intro i _ hlen
    simp only [WordState.new, List.length_replicate] at hlen
    simp [WordState.new, List.getElem?_replicate, hlen]

lemma WordState.inv_add (ws : WordState) (h : ws.Inv) (ch : Char) :
    ((ws.add_char ch).1).Inv := by
  obtain ⟨hlen, hcur, hlo, hhi⟩ := h
  unfold WordState.add_char
  by_cases hge : ws.cursor_pos ≥ ws.char_states.length
  · simp only [hge, if_true]
    exact ⟨hlen, hcur, hlo, hhi⟩
  · push_neg at hge
    have hcurlt : ws.cursor_pos < ws.target.length := by omega
    obtain ⟨expected, hexp⟩ : ∃ e, ws.target[ws.cursor_pos]? = some e :=
      ⟨ws.target[ws.cursor_pos], List.getElem?_eq_getElem hcurlt⟩
    simp only [not_le.mpr hge, if_false, hexp]
    refine ⟨by simpa using hlen, by simpa using hge, ?_, ?_⟩
    · intro i hi
      simp only at hi ⊢
      by_cases hic : i = ws.cursor_pos
      · subst hic
        rw [List.getElem?_set_self hge]
        by_cases hc : ch = expected <;> simp [hc]
      · have hilt : i < ws.cursor_pos := by omega
        rw [List.getElem?_set_ne (by omega)]
        exact hlo i hilt
    · intro i hge2 hilen
      simp only at hge2 hilen ⊢
      rw [List.getElem?_set_ne (by omega)]
      exact hhi i (by omega) (by simpa using hilen)

lemma WordState.inv_remove (ws : WordState) (h : ws.Inv) :
    (ws.remove_char.1).Inv := by
  obtain ⟨hlen, hcur, hlo, hhi⟩ := h
  unfold WordState.remove_char
  by_cases hpos : ws.cursor_pos > 0
  · simp only [hpos, if_true]
    refine ⟨by simpa using hlen, by simp; omega, ?_, ?_⟩
    · intro i hi
      simp only at hi ⊢
      rw [List.getElem?_set_ne (by omega)]
      exact hlo i (by omega)
    · intro i hge hilen
      simp only at hge hilen ⊢
      by_cases hic : i = ws.cursor_pos - 1
      · subst hic
        rw [List.getElem?_set_self (by omega)]
      · rw [List.getElem?_set_ne (by omega)]
        exact hhi i (by omega) (by simpa using hilen)
  · simp only [hpos, if_false]
    exact ⟨hlen, hcur, hlo, hhi⟩

lemma WordState.inv_applyOp (ws : WordState) (h : ws.Inv) (op : WsOp) :
    (ws.applyOp op).Inv := by
  cases op with
  | add ch => exact ws.inv_add h ch
  | remove => exact ws.inv_remove h

lemma WordState.inv_applyOps (ws : WordState) (h : ws.Inv) (ops : List WsOp) :
    (ws.applyOps ops).Inv := by
  induction ops generalizing ws with
  | nil => exact h
  | cons op rest ih =>
      exact ih (ws.applyOp op) (ws.inv_applyOp h op)

/-- A list whose first `c` entries satisfy the predicate and whose remaining
entries fail it has `countP` exactly `c`. -/
lemma countP_of_pointwise (p : CharState → Bool) (l : List CharState) (c : Nat)
    (hc : c ≤ l.length)
    (h1 : ∀ i, i < c → ∀ s, l[i]? = some s → p s = true)
    (h2 : ∀ i, c ≤ i → i < l.length → ∀ s, l[i]? = some s → p s = false) :
    l.countP p = c := by
  induction l generalizing c with
  | nil =>
      simp only [List.length_nil, Nat.le_zero] at hc
      simp [hc]
  | cons a t ih =>
      cases c with
      | zero =>
          have ha : p a = false := h2 0 (Nat.le_refl 0) (by simp) a (by simp)
          have ht : t.countP p = 0 := by
            refine ih 0 (Nat.zero_le _) (by intro i hi; omega) ?_
            intro i _ hilen s hs
            exact h2 (i + 1) (Nat.le_add_left 0 _)
              (by simp only [List.length_cons]; omega) s (by simpa using hs)
          simp [List.countP_cons, ha, ht]
      | succ c =>
          have ha : p a = true := h1 0 (Nat.succ_pos c) a (by simp)
          have ht : t.countP p = c := by
            refine ih c (by simp only [List.length_cons] at hc; omega) ?_ ?_
            · intro i hi s hs
              exact h1 (i + 1) (by omega) s (by simpa using hs)
            · intro i hge hilen s hs
              exact h2 (i + 1) (by omega)
                (by simp only [List.length_cons]; omega) s (by simpa using hs)
          simp [List.countP_cons, ha, ht]

/-- Rust `TestState` from engine.rs. -/
inductive TestState where
  | NotStarted
  | InProgress
  | Finished
deriving DecidableEq, Repr

/-- Rust `TestMode` from engine.rs. -/
inductive TestMode where
  | Time (seconds : Nat)
  | Words (count : Nat)
deriving DecidableEq, Repr

/-- Rust `TestMetrics` from metrics.rs; `f64` fields are modelled as `ℚ`. -/
structure TestMetrics where
  wpm : ℚ
  cpm : ℚ
  accuracy : ℚ
deriving DecidableEq, Repr

/-- Rust `calculate_wpm` from metrics.rs. -/
def calculate_wpm (chars_typed : Nat) (time_sec : ℚ) : ℚ :=
  if time_sec ≤ 0 then 0
  else ((chars_typed : ℚ) / 5) / (time_sec / 60)

/-- Rust `calculate_cpm` from metrics.rs. -/
def calculate_cpm (chars_typed : Nat) (time_sec : ℚ) : ℚ :=
  if time_sec ≤ 0 then 0
  else (chars_typed : ℚ) / (time_sec / 60)

/-- Rust `calculate_accuracy` from metrics.rs. -/
def calculate_accuracy (correct total : Nat) : ℚ :=
  if total = 0 then 100
  else ((correct : ℚ) / (total : ℚ)) * 100

/-- Rust `TestMetrics::calculate` from metrics.rs. -/
def TestMetrics.calculate (correct_chars incorrect_chars : Nat)
    (elapsed_seconds : ℚ) : TestMetrics :=
  let total_chars := correct_chars + incorrect_chars
  { wpm := calculate_wpm correct_chars elapsed_seconds
    cpm := calculate_cpm correct_chars elapsed_seconds
    accuracy := calculate_accuracy correct_chars total_chars }

/-- Rust `TestEngine` from engine.rs.  `Instant` timestamps are modelled as `ℚ`
seconds; operations that call `Instant::now()` take an explicit `now`. -/
structure TestEngine where
  state : TestState
  mode : TestMode
  words : List (List Char)
  current_word_index : Nat
  current_word_state : Option WordState
  start_time : Option ℚ
  end_time : Option ℚ
  total_chars_typed : Nat
  correct_chars : Nat
  incorrect_chars : Nat
  result_saved : Bool
deriving DecidableEq, Repr

/-- Rust `TestEngine::new`. -/
def TestEngine.new (mode : TestMode) (words : List (List Char)) : TestEngine :=
  { state := TestState.NotStarted
    mode := mode
    words := words
    current_word_index := 0
    current_word_state := words.head?.map WordState.new
    start_time := none
    end_time := none
    total_chars_typed := 0
    correct_chars := 0
    incorrect_chars := 0
    result_saved := false }

/-- Rust `TestEngine::start`. -/
def TestEngine.start (e : TestEngine) (now : ℚ) : TestEngine :=
  if e.state = TestState.NotStarted then
    { e with state := TestState.InProgress, start_time := some now }
  else e

/-- Rust `TestEngine::finish`. -/
def TestEngine.finish (e : TestEngine) (now : ℚ) : TestEngine :=
  if e.state = TestState.InProgress then
    { e with state := TestState.Finished, end_time := some now }
  else e

/-- Rust `TestEngine::elapsed_seconds`. -/
def TestEngine.elapsed_seconds (e : TestEngine) (now : ℚ) : ℚ :=
  match e.start_time with
  | some start => (e.end_time.getD now) - start
  | none => 0

/-- Rust `TestEngine::current_word`. -/
def TestEngine.current_word (e : TestEngine) : Option (List Char) :=
  e.words[e.current_word_index]?

/-- Rust `TestEngine::should_auto_finish`. -/
def TestEngine.should_auto_finish (e : TestEngine) (now : ℚ) : Bool :=
  match e.mode with
  | TestMode.Time seconds => decide (e.elapsed_seconds now ≥ (seconds : ℚ))
  | TestMode.Words count => decide (e.current_word_index ≥ count)

/-- Rust `TestEngine::type_char`. -/
def TestEngine.type_char (e : TestEngine) (ch : Char) (now : ℚ) : TestEngine :=
  let e1 := if e.state = TestState.NotStarted then e.start now else e
  if e1.state ≠ TestState.InProgress then e1
  else
    match e1.current_word_state with
    | some word_state =>
        let r := word_state.add_char ch
        if r.2 then
          { e1 with current_word_state := some r.1
                    total_chars_typed := e1.total_chars_typed + 1 }
        else
          { e1 with current_word_state := some r.1 }
    | none => e1

/-- Rust `TestEngine::backspace`. -/
def TestEngine.backspace (e : TestEngine) : TestEngine :=
  if e.state ≠ TestState.InProgress then e
  else
    match e.current_word_state with
    | some word_state =>
        { e with current_word_state := some word_state.remove_char.1 }
    | none => e

/-- Rust `TestEngine::next_word`. -/
def TestEngine.next_word (e : TestEngine) (now : ℚ) : TestEngine :=
  if e.state ≠ TestState.InProgress then e
  else
    let e1 :=
      match e.current_word_state with
      | some word_state =>
          { e with correct_chars := e.correct_chars + word_state.correct_count
                   incorrect_chars := e.incorrect_chars + word_state.incorrect_count }
      | none => e
    let e2 := { e1 with current_word_index := e1.current_word_index + 1 }
    let e3 :=
      match e2.words[e2.current_word_index]? with
      | some next => { e2 with current_word_state := some (WordState.new next) }
      | none => { e2 with current_word_state := none }
    if e3.should_auto_finish now then e3.finish now else e3

/-- Rust `TestEngine::get_metrics`. -/
def TestEngine.get_metrics (e : TestEngine) (now : ℚ) : TestMetrics :=
  TestMetrics.calculate e.correct_chars e.incorrect_chars (e.elapsed_seconds now)

/-- Rust `TestEngine::reset`. -/
def TestEngine.reset (e : TestEngine) : TestEngine :=
  { e with
      state := TestState.NotStarted
      current_word_index := 0
      current_word_state := e.words.head?.map WordState.new
      start_time := none
      end_time := none
      total_chars_typed := 0
      correct_chars := 0
      incorrect_chars := 0
      result_saved := false }

/-- One externally-driven engine operation (the input call surface). -/
inductive EngineOp where
  | start (now : ℚ)
  | finish (now : ℚ)
  | type_char (ch : Char) (now : ℚ)
  | backspace
  | next_word (now : ℚ)
  | reset
deriving DecidableEq, Repr

/-- Apply one engine operation. -/
def TestEngine.applyOp (e : TestEngine) : EngineOp → TestEngine
  | EngineOp.start now => e.start now
  | EngineOp.finish now => e.finish now
  | EngineOp.type_char ch now => e.type_char ch now
  | EngineOp.backspace => e.backspace
  | EngineOp.next_word now => e.next_word now
  | EngineOp.reset => e.reset

/-- Rust `BestScore` from profile/models.rs (`f64` fields as `ℚ`). -/
structure BestScore where
  wpm : ℚ
  cpm : ℚ
  accuracy : ℚ
  timestamp : Nat
deriving DecidableEq, Repr

/-- Rust `BestScore::is_better_than`: comparison is on wpm alone, strictly. -/
def BestScore.is_better_than (s other : BestScore) : Bool :=
  decide (s.wpm > other.wpm)

/-- Rust `Profile` from profile/models.rs. -/
structure Profile where
  best_30_seconds : Option BestScore
  best_30_words : Option BestScore
deriving DecidableEq, Repr

/-- Rust `Profile::new`. -/
def Profile.new : Profile :=
  { best_30_seconds := none, best_30_words := none }

/-- Rust `Profile::update_score`: returns the updated profile and whether the
score was a new personal best (Rust mutates in place and returns `bool`). -/
def Profile.update_score (p : Profile) (mode : TestMode) (score : BestScore) :
    Profile × Bool :=
  match mode with
  | TestMode.Time 30 =>
      match p.best_30_seconds with
      | some current_best =>
          if score.is_better_than current_best then
            ({ p with best_30_seconds := some score }, true)
          else (p, false)
      | none => ({ p with best_30_seconds := some score }, true)
  | TestMode.Words 30 =>
      match p.best_30_words with
      | some current_best =>
          if score.is_better_than current_best then
            ({ p with best_30_words := some score }, true)
          else (p, false)
      | none => ({ p with best_30_words := some score }, true)
  | _ => (p, false)

/-- Rust `SliceRandom::choose` from the rand crate, as used in words.rs: `none` on
an empty slice, otherwise the element at a random index.  The random draw is
modelled by an arbitrary natural `r`, reduced modulo the length. -/
def sliceChoose (words : List (List Char)) (r : Nat) : Option (List Char) :=
  if words.length = 0 then none
  else words[r % words.length]?

/-- Rust `generate_word_sequence` from words.rs: the loop pushes one word per
iteration when `choose` yields one.  The thread rng is modelled as a stream
`rng : Nat → Nat` of draws, one per iteration. -/
def generate_word_sequence (count : Nat) (words : List (List Char))
    (rng : Nat → Nat) : List (List Char) :=
  (List.range count).filterMap (fun i => sliceChoose words (rng i))

/-- Position of a `TestState` along NotStarted → InProgress → Finished. -/
def TestState.rank : TestState → Nat
  | TestState.NotStarted => 0
  | TestState.InProgress => 1
  | TestState.Finished => 2

/-- The Words(3) demo word list "ala" / "ma" / "kota". -/
def demoWords : List (List Char) :=
  [['a', 'l', 'a'], ['m', 'a'], ['k', 'o', 't', 'a']]

/-- Fresh Words(3) engine over the demo words. -/
def demoE0 : TestEngine := TestEngine.new (TestMode.Words 3) demoWords

/-- After typing "ala" correctly and advancing. -/
def demoE1 : TestEngine :=
  (((demoE0.type_char 'a' 0).type_char 'l' 0).type_char 'a' 0).next_word 0

/-- After typing "ma" correctly and advancing. -/
def demoE2 : TestEngine :=
  ((demoE1.type_char 'm' 0).type_char 'a' 0).next_word 0

/-- After typing "kota" correctly and advancing the third time. -/
def demoE3 : TestEngine :=
  ((((demoE2.type_char 'k' 0).type_char 'o' 0).type_char 't' 0).type_char 'a'
    0).next_word 0

/-- C5: `calculate_wpm c t` is 0 for `t ≤ 0` and `(c/5)/(t/60)` otherwise;
`calculate_cpm c t` is 0 for `t ≤ 0` and `c/(t/60)` otherwise;
`calculate_accuracy correct total` is 100 for `total = 0` and
`100*correct/total` otherwise; in particular accuracy(0,0) = 100,
accuracy(80,100) = 80, wpm(50,60) = 10, cpm(100,60) = 100. -/
theorem C5_metrics_formulas (c : Nat) (t : ℚ) (correct total : Nat) :
    (t ≤ 0 → calculate_wpm c t = 0) ∧
    (0 < t → calculate_wpm c t = ((c : ℚ) / 5) / (t / 60)) ∧
    (t ≤ 0 → calculate_cpm c t = 0) ∧
    (0 < t → calculate_cpm c t = (c : ℚ) / (t / 60)) ∧
    (total = 0 → calculate_accuracy correct total = 100) ∧
    (total ≠ 0 →
      calculate_accuracy correct total = 100 * (correct : ℚ) / (total : ℚ)) ∧
    calculate_accuracy 0 0 = 100 ∧
    calculate_accuracy 80 100 = 80 ∧
    calculate_wpm 50 60 = 10 ∧
    calculate_cpm 100 60 = 100 := by
  refine ⟨?_, ?_, ?_, ?_, ?_, ?_, ?_, ?_, ?_, ?_⟩
  · intro h; simp [calculate_wpm, h]
  · intro h; simp [calculate_wpm, not_le.mpr h]
  · intro h; simp [calculate_cpm, h]
  · intro h; simp [calculate_cpm, not_le.mpr h]
  · intro h; simp [calculate_accuracy, h]
  · intro h; simp only [calculate_accuracy, h, if_false]; ring
  · norm_num [calculate_accuracy]
  · norm_num [calculate_accuracy]
  · norm_num [calculate_wpm]
  · norm_num [calculate_cpm]

/-- Witness for C5 at concrete inputs discharging each hypothesis. -/
theorem C5_metrics_formulas_witness :
    calculate_wpm 7 (-1) = 0 ∧
    calculate_wpm 7 2 = ((7 : ℚ) / 5) / ((2 : ℚ) / 60) ∧
    calculate_cpm 7 (-1) = 0 ∧
    calculate_cpm 7 2 = (7 : ℚ) / ((2 : ℚ) / 60) ∧
    calculate_accuracy 5 0 = 100 ∧
    calculate_accuracy 5 8 = 100 * (5 : ℚ) / (8 : ℚ) := by
  have h := C5_metrics_formulas 7 (-1) 5 0
  have h2 := C5_metrics_formulas 7 2 5 8
  exact ⟨h.1 (by norm_num), h2.2.1 (by norm_num), h.2.2.1 (by norm_num),
    h2.2.2.2.1 (by norm_num), h.2.2.2.2.1 rfl,
    h2.2.2.2.2.2.1 (by norm_num)⟩

/-- C8: `update_score` with mode Time(30) or Words(30) stores a first score
and returns true; replaces the stored best and returns true exactly when the
new wpm is strictly greater; otherwise returns false leaving the profile
unchanged; any other mode returns false and never modifies the profile. -/
theorem C8_update_score (p : Profile) (score : BestScore) :
    (p.best_30_seconds = none →
      p.update_score (TestMode.Time 30) score =
        ({ p with best_30_seconds := some score }, true)) ∧
    (∀ cur, p.best_30_seconds = some cur →
      (cur.wpm < score.wpm →
        p.update_score (TestMode.Time 30) score =
          ({ p with best_30_seconds := some score }, true)) ∧
      (¬ cur.wpm < score.wpm →
        p.update_score (TestMode.Time 30) score = (p, false))) ∧
    (p.best_30_words = none →
      p.update_score (TestMode.Words 30) score =
        ({ p with best_30_words := some score }, true)) ∧
    (∀ cur, p.best_30_words = some cur →
      (cur.wpm < score.wpm →
        p.update_score (TestMode.Words 30) score =
          ({ p with best_30_words := some score }, true)) ∧
      (¬ cur.wpm < score.wpm →
        p.update_score (TestMode.Words 30) score = (p, false))) ∧
    (∀ mode, mode ≠ TestMode.Time 30 → mode ≠ TestMode.Words 30 →
      p.update_score mode score = (p, false)) := by
  refine ⟨?_, ?_, ?_, ?_, ?_⟩
  · intro h; simp [Profile.update_score, h]
  · intro cur h
    constructor
    · intro hlt
      simp [Profile.update_score, h, BestScore.is_better_than, hlt]
    · intro hge
      simp [Profile.update_score, h, BestScore.is_better_than, hge]
  · intro h; simp [Profile.update_score, h]
  · intro cur h
    constructor
    · intro hlt
      simp [Profile.update_score, h, BestScore.is_better_than, hlt]
    · intro hge
      simp [Profile.update_score, h, BestScore.is_better_than, hge]
  · intro mode h1 h2
    unfold Profile.update_score
    split
    · exact absurd rfl h1
    · exact absurd rfl h2
    · rfl

/-- Witness for C8: a fresh profile accepts a first Time(30) score; a
Time(45) score is rejected with the profile unchanged. -/
theorem C8_update_score_witness :
    Profile.new.update_score (TestMode.Time 30) ⟨10, 50, 90, 0⟩ =
      ({ Profile.new with best_30_seconds := some ⟨10, 50, 90, 0⟩ }, true) ∧
    Profile.new.update_score (TestMode.Time 45) ⟨10, 50, 90, 0⟩ =
      (Profile.new, false) := by
  have h := C8_update_score Profile.new ⟨10, 50, 90, 0⟩
  exact ⟨h.1 rfl, h.2.2.2.2 (TestMode.Time 45) (by simp) (by simp)⟩

lemma length_filterMap_of_isSome {α β : Type} (f : α → Option β) (l : List α)
    (h : ∀ a ∈ l, (f a).isSome) : (l.filterMap f).length = l.length := by
  induction l with
  | nil => rfl
  | cons a t ih =>
      obtain ⟨b, hb⟩ := Option.isSome_iff_exists.mp (h a (List.mem_cons_self a t))
      rw [List.filterMap_cons, hb]
      simp [ih (fun x hx => h x (List.mem_cons_of_mem a hx))]

/-- C9: with a non-empty pool, `generate_word_sequence` returns exactly
`count` words, each drawn from the pool; with an empty pool it returns the
empty sequence. -/
theorem C9_generate_word_sequence (count : Nat) (pool : List (List Char))
    (rng : Nat → Nat) :
    (pool ≠ [] →
      (generate_word_sequence count pool rng).length = count ∧
      ∀ w ∈ generate_word_sequence count pool rng, w ∈ pool) ∧
    (pool = [] → generate_word_sequence count pool rng = []) := by
  constructor
  · intro hne
    have hlen0 : pool.length ≠ 0 := by
      have := List.length_pos.mpr hne
      omega
    have hchoose : ∀ r, (sliceChoose pool r).isSome := by
      intro r
      unfold sliceChoose
      rw [if_neg hlen0]
      have hr : r % pool.length < pool.length :=
        Nat.mod_lt _ (Nat.pos_of_ne_zero hlen0)
      simp [List.getElem?_eq_getElem hr]
    constructor
    · rw [generate_word_sequence,
        length_filterMap_of_isSome _ _ (fun i _ => hchoose (rng i))]
      simp
    · intro w hw
      rw [generate_word_sequence] at hw
      obtain ⟨i, _, hi⟩ := List.mem_filterMap.mp hw
      unfold sliceChoose at hi
      rw [if_neg hlen0] at hi
      exact List.getElem?_mem hi
  · intro he
    subst he
    simp [generate_word_sequence, sliceChoose]

/-- Witness for C9 on a singleton pool and on the empty pool. -/
theorem C9_generate_word_sequence_witness :
    (generate_word_sequence 2 [['a']] (fun _ => 0)).length = 2 ∧
    (∀ w ∈ generate_word_sequence 2 [['a']] (fun _ => 0), w ∈ [['a']]) ∧
    generate_word_sequence 2 [] (fun _ => 0) = [] := by
  have h1 := C9_generate_word_sequence 2 [['a']] (fun _ => 0)
  have h2 := C9_generate_word_sequence 2 [] (fun _ => 0)
  exact ⟨(h1.1 (by simp)).1, (h1.1 (by simp)).2, h2.2 rfl⟩

/-- C2: on a well-formed `WordState` (one char-state per target code point),
`add_char` at or beyond the word length is a no-op returning false;
below the length it marks the cursor position Correct exactly when the typed
character equals the target code point there (Incorrect otherwise), advances
the cursor, and returns true. -/
theorem C2_add_char_spec (ws : WordState) (ch : Char)
    (hlen : ws.char_states.length = ws.target.length) :
    (ws.char_states.length ≤ ws.cursor_pos → ws.add_char ch = (ws, false)) ∧
    (ws.cursor_pos < ws.char_states.length →
      ∃ expected, ws.target[ws.cursor_pos]? = some expected ∧
        ws.add_char ch =
          ({ ws with
              char_states := ws.char_states.set ws.cursor_pos
                (if ch = expected then CharState.Correct else CharState.Incorrect)
              cursor_pos := ws.cursor_pos + 1 }, true)) := by
  constructor
  · intro h
    unfold WordState.add_char
    rw [if_pos h]
  · intro h
    have hlt : ws.cursor_pos < ws.target.length := hlen ▸ h
    refine ⟨ws.target[ws.cursor_pos], List.getElem?_eq_getElem hlt, ?_⟩
    unfold WordState.add_char
    rw [if_neg (not_le.mpr h), List.getElem?_eq_getElem hlt]

/-- Witness for C2: a full cursor is a no-op; a fresh two-letter word
consumes a keystroke. -/
theorem C2_add_char_spec_witness :
    (WordState.mk ['a'] [CharState.Correct] 1).add_char 'x' =
      (WordState.mk ['a'] [CharState.Correct] 1, false) ∧
    ∃ expected,
      (WordState.new ['a', 'b']).target[(WordState.new ['a', 'b']).cursor_pos]? =
        some expected ∧
      (WordState.new ['a', 'b']).add_char 'x' =
        ({ WordState.new ['a', 'b'] with
            char_states :=
              (WordState.new ['a', 'b']).char_states.set
                (WordState.new ['a', 'b']).cursor_pos
                (if 'x' = expected then CharState.Correct else CharState.Incorrect)
            cursor_pos := (WordState.new ['a', 'b']).cursor_pos + 1 }, true) := by
  have h1 := C2_add_char_spec (WordState.mk ['a'] [CharState.Correct] 1) 'x' (by simp)
  have h2 := C2_add_char_spec (WordState.new ['a', 'b']) 'x' (by simp [WordState.new])
  exact ⟨h1.1 (by simp), h2.2 (by simp [WordState.new])⟩

/-- C1: after any sequence of add_char/remove_char operations on a freshly
created `WordState`, the cursor equals the number of non-Untyped entries,
every index below the cursor holds Correct or Incorrect, and every index at
or above the cursor holds Untyped. -/
theorem C1_cursor_diff_invariant (target : List Char) (ops : List WsOp) :
    ((WordState.new target).applyOps ops).cursor_pos =
      ((WordState.new target).applyOps ops).char_states.countP
        (fun s => !(s == CharState.Untyped)) ∧
    (∀ i, i < ((WordState.new target).applyOps ops).cursor_pos →
      ((WordState.new target).applyOps ops).char_states[i]? =
          some CharState.Correct ∨
      ((WordState.new target).applyOps ops).char_states[i]? =
          some CharState.Incorrect) ∧
    (∀ i, ((WordState.new target).applyOps ops).cursor_pos ≤ i →
      i < ((WordState.new target).applyOps ops).char_states.length →
      ((WordState.new target).applyOps ops).char_states[i]? =
        some CharState.Untyped) := by
  obtain ⟨hlen, hcur, hlo, hhi⟩ :=
    (WordState.new target).inv_applyOps (WordState.inv_new target) ops
  refine ⟨?_, hlo, hhi⟩
  symm
  refine countP_of_pointwise _ _ _ hcur ?_ ?_
  · intro i hi s hs
    rcases hlo i hi with h | h <;> (rw [hs] at h; injection h with h; subst h; rfl)
  · intro i hge hilen s hs
    have h := hhi i hge hilen
    rw [hs] at h
    injection h with h
    subst h
    rfl

/-- Witness for C1 after one correct and one wrong keystroke on "ab". -/
theorem C1_cursor_diff_invariant_witness :
    ((WordState.new ['a', 'b']).applyOps
        [WsOp.add 'a', WsOp.add 'x']).char_states[1]? =
      some CharState.Correct ∨
    ((WordState.new ['a', 'b']).applyOps
        [WsOp.add 'a', WsOp.add 'x']).char_states[1]? =
      some CharState.Incorrect :=
  (C1_cursor_diff_invariant ['a', 'b'] [WsOp.add 'a', WsOp.add 'x']).2.1 1
    (by decide)

/-- C10: every reachable `WordState` keeps one char-state entry per target
code point with the cursor in bounds; whenever the cursor is below the
length, the target lookup in `add_char` succeeds and the keystroke is
consumed (the fall-through branch is unreachable), so indexing stays in
bounds. -/
theorem C10_length_invariant_no_panic (target : List Char) (ops : List WsOp) :
    ((WordState.new target).applyOps ops).char_states.length =
      ((WordState.new target).applyOps ops).target.length ∧
    ((WordState.new target).applyOps ops).cursor_pos ≤
      ((WordState.new target).applyOps ops).char_states.length ∧
    (((WordState.new target).applyOps ops).cursor_pos <
        ((WordState.new target).applyOps ops).char_states.length →
      (((WordState.new target).applyOps
          ops).target[((WordState.new target).applyOps ops).cursor_pos]?).isSome ∧
      ∀ ch, (((WordState.new target).applyOps ops).add_char ch).2 = true) := by
  obtain ⟨hlen, hcur, hlo, hhi⟩ :=
    (WordState.new target).inv_applyOps (WordState.inv_new target) ops
  refine ⟨hlen, hcur, ?_⟩
  intro hlt
  have hlt2 : ((WordState.new target).applyOps ops).cursor_pos <
      ((WordState.new target).applyOps ops).target.length := hlen ▸ hlt
  constructor
  · rw [List.getElem?_eq_getElem hlt2]
    rfl
  · intro ch
    unfold WordState.add_char
    rw [if_neg (not_le.mpr hlt), List.getElem?_eq_getElem hlt2]

/-- Witness for C10 on a fresh one-letter word. -/
theorem C10_length_invariant_no_panic_witness :
    (((WordState.new ['a']).applyOps
        []).target[((WordState.new ['a']).applyOps []).cursor_pos]?).isSome ∧
    ∀ ch, (((WordState.new ['a']).applyOps []).add_char ch).2 = true :=
  (C10_length_invariant_no_panic ['a'] []).2.2 (by decide)

lemma WordState.target_add (ws : WordState) (ch : Char) :
    ((ws.add_char ch).1).target = ws.target := by
  unfold WordState.add_char
  split
  · rfl
  · split <;> rfl

lemma WordState.target_remove (ws : WordState) :
    (ws.remove_char.1).target = ws.target := by
  unfold WordState.remove_char
  split <;> rfl

lemma WordState.cursor_add_le (ws : WordState) (ch : Char) :
    ((ws.add_char ch).1).cursor_pos ≤ ws.cursor_pos + 1 := by
  unfold WordState.add_char
  split
  · exact Nat.le_succ _
  · split
    · exact Nat.le_refl _
    · exact Nat.le_succ _

lemma WordState.cursor_applyAdds_le (ws : WordState) (cs : List Char) :
    (ws.applyOps (cs.map WsOp.add)).cursor_pos ≤ ws.cursor_pos + cs.length := by
  induction cs generalizing ws with
  | nil => simp [WordState.applyOps]
  | cons c rest ih =>
      have h1 := ih (ws.applyOp (WsOp.add c))
      have h2 := ws.cursor_add_le c
      simp only [List.map_cons, WordState.applyOps, List.foldl_cons] at h1 ⊢
      have h3 : (ws.applyOp (WsOp.add c)).cursor_pos ≤ ws.cursor_pos + 1 := h2
      simp only [List.length_cons]
      omega

lemma WordState.removes_reset (n : Nat) (ws : WordState) (hinv : ws.Inv)
    (hcur : ws.cursor_pos ≤ n) :
    ws.applyOps (List.replicate n WsOp.remove) = WordState.new ws.target := by
  induction n generalizing ws with
  | zero =>
      obtain ⟨hlen, _, _, hhi⟩ := hinv
      have hc0 : ws.cursor_pos = 0 := Nat.le_zero.mp hcur
      have hrep : ws.char_states =
          List.replicate ws.target.length CharState.Untyped := by
        apply List.ext_getElem?
        intro i
        by_cases hi : i < ws.char_states.length
        · rw [hhi i (hc0 ▸ Nat.zero_le i) hi,
            List.getElem?_replicate_of_lt (hlen ▸ hi)]
        · rw [List.getElem?_eq_none (Nat.le_of_not_lt hi),
            List.getElem?_eq_none]
          rw [List.length_replicate]
          omega
      obtain ⟨t, c, p⟩ := ws
      simp only [WordState.applyOps, List.replicate, List.foldl_nil, WordState.new]
      simp_all
  | succ n ih =>
      rw [List.replicate_succ]
      simp only [WordState.applyOps, List.foldl_cons]
      have hws2 : ws.applyOp WsOp.remove = ws.remove_char.1 := rfl
      by_cases hz : ws.cursor_pos = 0
      · have hnoop : ws.remove_char.1 = ws := by
          unfold WordState.remove_char
          rw [if_neg (by omega)]
        rw [hws2, hnoop]
        exact ih ws hinv (by omega)
      · have h2 := ws.inv_remove hinv
        have htr := ws.target_remove
        have hc2 : (ws.remove_char.1).cursor_pos = ws.cursor_pos - 1 := by
          unfold WordState.remove_char
          rw [if_pos (by omega)]
        rw [hws2]
        have hfin := ih ws.remove_char.1 h2 (by omega)
        rw [htr] at hfin
        exact hfin

lemma WordState.target_applyOps (ws : WordState) (ops : List WsOp) :
    (ws.applyOps ops).target = ws.target := by
  induction ops generalizing ws with
  | nil => rfl
  | cons op rest ih =>
      have hstep : (ws.applyOp op).target = ws.target := by
        cases op with
        | add ch => exact ws.target_add ch
        | remove => exact ws.target_remove
      calc (ws.applyOps (op :: rest)).target
          = ((ws.applyOp op).applyOps rest).target := rfl
        _ = (ws.applyOp op).target := ih (ws.applyOp op)
        _ = ws.target := hstep

/-- C3: from a fresh `WordState`, any `n` keystrokes followed by `n`
backspaces restore the initial state exactly; a backspace at cursor 0 is a
no-op returning false. -/
theorem C3_backspace_inverse (target : List Char) (cs : List Char) :
    (WordState.new target).applyOps
        (cs.map WsOp.add ++ List.replicate cs.length WsOp.remove) =
      WordState.new target ∧
    ∀ ws : WordState, ws.cursor_pos = 0 → ws.remove_char = (ws, false) := by
  constructor
  · have happ : (WordState.new target).applyOps
        (cs.map WsOp.add ++ List.replicate cs.length WsOp.remove) =
        ((WordState.new target).applyOps (cs.map WsOp.add)).applyOps
          (List.replicate cs.length WsOp.remove) := by
      simp [WordState.applyOps, List.foldl_append]
    have hinv1 : ((WordState.new target).applyOps (cs.map WsOp.add)).Inv :=
      (WordState.new target).inv_applyOps (WordState.inv_new target) _
    have hc : ((WordState.new target).applyOps (cs.map WsOp.add)).cursor_pos ≤
        cs.length := by
      have := (WordState.new target).cursor_applyAdds_le cs
      simpa [WordState.new] using this
    have ht : ((WordState.new target).applyOps (cs.map WsOp.add)).target =
        target := (WordState.new target).target_applyOps (cs.map WsOp.add)
    rw [happ, WordState.removes_reset cs.length _ hinv1 hc, ht]
  · intro ws h0
    unfold WordState.remove_char
    rw [if_neg (by omega)]

/-- Witness for C3 on "ab" with keystrokes "xb". -/
theorem C3_backspace_inverse_witness :
    (WordState.new ['a', 'b']).applyOps
        ([WsOp.add 'x', WsOp.add 'b'] ++ List.replicate 2 WsOp.remove) =
      WordState.new ['a', 'b'] ∧
    (WordState.new ['a', 'b']).remove_char = (WordState.new ['a', 'b'], false) := by
  have h := C3_backspace_inverse ['a', 'b'] ['x', 'b']
  exact ⟨h.1, h.2 (WordState.new ['a', 'b']) rfl⟩


lemma TestEngine.state_start (e : TestEngine) (now : ℚ) :
    (e.start now).state =
      if e.state = TestState.NotStarted then TestState.InProgress
      else e.state := by
  unfold TestEngine.start
  split <;> simp [*]

lemma TestEngine.state_finish (e : TestEngine) (now : ℚ) :
    (e.finish now).state =
      if e.state = TestState.InProgress then TestState.Finished
      else e.state := by
  unfold TestEngine.finish
  split <;> simp [*]

lemma TestEngine.state_type_char (e : TestEngine) (ch : Char) (now : ℚ) :
    (e.type_char ch now).state =
      if e.state = TestState.NotStarted then TestState.InProgress
      else e.state := by
  unfold TestEngine.type_char TestEngine.start
  by_cases h : e.state = TestState.NotStarted
  · simp only [h, if_true, reduceIte, ne_eq, not_true_eq_false]
    cases hcw : e.current_word_state <;>
      first
      | (simp [hcw]; split <;> rfl)
      | simp [hcw]
  · simp only [h, if_false, reduceIte, ne_eq]
    by_cases h2 : e.state = TestState.InProgress
    · simp only [h2, not_true_eq_false, reduceIte]
      cases hcw : e.current_word_state <;>
        first
        | (simp [hcw, h2]; split <;> rfl)
        | simp [hcw, h2]
    · simp [h2]

lemma TestEngine.state_backspace (e : TestEngine) :
    e.backspace.state = e.state := by
  unfold TestEngine.backspace
  split
  · rfl
  · cases hcw : e.current_word_state <;> simp [hcw]

lemma TestEngine.state_next_word (e : TestEngine) (now : ℚ) :
    (e.next_word now).state = e.state ∨
    (e.state = TestState.InProgress ∧
      (e.next_word now).state = TestState.Finished) := by
  unfold TestEngine.next_word TestEngine.finish
  by_cases h : e.state = TestState.InProgress
  · simp only [h, ne_eq, not_true_eq_false, reduceIte]
    cases hcw : e.current_word_state <;>
      simp only [hcw] <;>
      (cases hnx : e.words[e.current_word_index + 1]? <;>
        simp only [hnx] <;> split <;> simp [h])
  · simp [h]

lemma TestEngine.state_reset (e : TestEngine) :
    e.reset.state = TestState.NotStarted := rfl

/-- C6: the engine state machine is strict: `start` moves only
NotStarted → InProgress, `finish` only InProgress → Finished, `type_char`
auto-starts from NotStarted but not from Finished, no single operation takes
NotStarted to Finished, no operation other than `reset` lowers the state,
and `reset` returns every state to NotStarted. -/
theorem C6_state_machine (e : TestEngine) :
    (∀ now, (e.start now).state =
      if e.state = TestState.NotStarted then TestState.InProgress
      else e.state) ∧
    (∀ now, (e.finish now).state =
      if e.state = TestState.InProgress then TestState.Finished
      else e.state) ∧
    (∀ ch now, e.state = TestState.NotStarted →
      (e.type_char ch now).state = TestState.InProgress) ∧
    (∀ ch now, e.state = TestState.Finished →
      (e.type_char ch now).state = TestState.Finished) ∧
    (∀ op, e.state = TestState.NotStarted →
      (e.applyOp op).state ≠ TestState.Finished) ∧
    (∀ op, op ≠ EngineOp.reset →
      e.state.rank ≤ (e.applyOp op).state.rank) ∧
    e.reset.state = TestState.NotStarted := by
  refine ⟨e.state_start, e.state_finish, ?_, ?_, ?_, ?_, e.state_reset⟩
  · intro ch now h
    rw [e.state_type_char, if_pos h]
  · intro ch now h
    rw [e.state_type_char, if_neg (by rw [h]; exact fun hc => nomatch hc)]
    exact h
  · intro op h
    cases op with
    | start now =>
        rw [TestEngine.applyOp, e.state_start, if_pos h]
        exact fun hc => nomatch hc
    | finish now =>
        rw [TestEngine.applyOp, e.state_finish,
          if_neg (by rw [h]; exact fun hc => nomatch hc), h]
        exact fun hc => nomatch hc
    | type_char ch now =>
        rw [TestEngine.applyOp, e.state_type_char, if_pos h]
        exact fun hc => nomatch hc
    | backspace =>
        rw [TestEngine.applyOp, e.state_backspace, h]
        exact fun hc => nomatch hc
    | next_word now =>
        rw [TestEngine.applyOp]
        rcases e.state_next_word now with hs | ⟨hip, _⟩
        · rw [hs, h]
          exact fun hc => nomatch hc
        · rw [h] at hip
          exact nomatch hip
    | reset =>
        rw [TestEngine.applyOp, e.state_reset]
        exact fun hc => nomatch hc
  · intro op h
    cases op with
    | start now =>
        rw [TestEngine.applyOp, e.state_start]
        split
        · rename_i hns
          rw [hns]
          exact Nat.zero_le _
        · exact Nat.le_refl _
    | finish now =>
        rw [TestEngine.applyOp, e.state_finish]
        split
        · rename_i hip
          rw [hip]
          exact Nat.le_succ _
        · exact Nat.le_refl _
    | type_char ch now =>
        rw [TestEngine.applyOp, e.state_type_char]
        split
        · rename_i hns
          rw [hns]
          exact Nat.zero_le _
        · exact Nat.le_refl _
    | backspace =>
        rw [TestEngine.applyOp, e.state_backspace]
    | next_word now =>
        rw [TestEngine.applyOp]
        rcases e.state_next_word now with hs | ⟨hip, hfin⟩
        · rw [hs]
        · rw [hip, hfin]
          exact Nat.le_succ _
    | reset => exact absurd rfl h

/-- Witness for C6 on a fresh one-word engine. -/
theorem C6_state_machine_witness :
    ((TestEngine.new (TestMode.Time 30) [['a']]).type_char 'a' 0).state =
      TestState.InProgress ∧
    ((TestEngine.new (TestMode.Time 30) [['a']]).applyOp
        (EngineOp.next_word 0)).state ≠ TestState.Finished ∧
    (TestEngine.new (TestMode.Time 30) [['a']]).state.rank ≤
      ((TestEngine.new (TestMode.Time 30) [['a']]).applyOp
        (EngineOp.start 0)).state.rank := by
  have h := C6_state_machine (TestEngine.new (TestMode.Time 30) [['a']])
  exact ⟨h.2.2.1 'a' 0 rfl, h.2.2.2.2.1 (EngineOp.next_word 0) rfl,
    h.2.2.2.2.2.1 (EngineOp.start 0) (by simp)⟩

lemma TestEngine.type_char_fields (e : TestEngine) (ch : Char) (now : ℚ) :
    (e.type_char ch now).correct_chars = e.correct_chars ∧
    (e.type_char ch now).incorrect_chars = e.incorrect_chars ∧
    e.total_chars_typed ≤ (e.type_char ch now).total_chars_typed := by
  unfold TestEngine.type_char TestEngine.start
  by_cases h : e.state = TestState.NotStarted
  · simp only [h, reduceIte, ne_eq, not_true_eq_false]
    cases hcw : e.current_word_state <;> simp only [hcw, not_false_eq_true,
      reduceIte] <;> first
      | (split <;> exact ⟨rfl, rfl, by simp⟩)
      | simp
  · simp only [h, reduceIte, ne_eq]
    by_cases h2 : e.state = TestState.InProgress
    · simp only [h2, not_true_eq_false, reduceIte]
      cases hcw : e.current_word_state <;> simp only [hcw, not_false_eq_true,
        reduceIte] <;> first
        | (split <;> exact ⟨rfl, rfl, by simp⟩)
        | simp
    · simp [h2]

lemma TestEngine.backspace_fields (e : TestEngine) :
    e.backspace.correct_chars = e.correct_chars ∧
    e.backspace.incorrect_chars = e.incorrect_chars ∧
    e.backspace.total_chars_typed = e.total_chars_typed := by
  unfold TestEngine.backspace
  split
  · exact ⟨rfl, rfl, rfl⟩
  · cases hcw : e.current_word_state <;> simp [hcw]

lemma TestEngine.next_word_counters (e : TestEngine) (now : ℚ) (ws : WordState)
    (hip : e.state = TestState.InProgress)
    (hcw : e.current_word_state = some ws) :
    (e.next_word now).correct_chars = e.correct_chars + ws.correct_count ∧
    (e.next_word now).incorrect_chars = e.incorrect_chars + ws.incorrect_count := by
  unfold TestEngine.next_word TestEngine.finish
  simp only [hip, ne_eq, not_true_eq_false, reduceIte, hcw]
  cases hnx : e.words[e.current_word_index + 1]? <;>
    simp only [hnx] <;> split <;> simp

/-- C7: `type_char` and `backspace` never change the cumulative
correct/incorrect counters — only `next_word` folds the completed word's
counts into them — and `backspace` never decrements `total_chars_typed`. -/
theorem C7_counters_frame (e : TestEngine) :
    (∀ ch now, (e.type_char ch now).correct_chars = e.correct_chars ∧
      (e.type_char ch now).incorrect_chars = e.incorrect_chars) ∧
    (e.backspace.correct_chars = e.correct_chars ∧
      e.backspace.incorrect_chars = e.incorrect_chars) ∧
    e.total_chars_typed ≤ e.backspace.total_chars_typed ∧
    (∀ now ws, e.state = TestState.InProgress →
      e.current_word_state = some ws →
      (e.next_word now).correct_chars = e.correct_chars + ws.correct_count ∧
      (e.next_word now).incorrect_chars =
        e.incorrect_chars + ws.incorrect_count) := by
  refine ⟨?_, ?_, ?_, ?_⟩
  · intro ch now
    exact ⟨(e.type_char_fields ch now).1, (e.type_char_fields ch now).2.1⟩
  · exact ⟨e.backspace_fields.1, e.backspace_fields.2.1⟩
  · exact Nat.le_of_eq e.backspace_fields.2.2.symm
  · intro now ws hip hcw
    exact e.next_word_counters now ws hip hcw

/-- Witness for C7: next_word on a started one-word engine folds the typed
word's counts. -/
theorem C7_counters_frame_witness :
    (((TestEngine.new (TestMode.Words 30) [['a']]).type_char 'a' 0).next_word
        0).correct_chars =
      ((TestEngine.new (TestMode.Words 30) [['a']]).type_char 'a'
        0).correct_chars +
        (WordState.mk ['a'] [CharState.Correct] 1).correct_count := by
  have h := C7_counters_frame
    ((TestEngine.new (TestMode.Words 30) [['a']]).type_char 'a' 0)
  exact (h.2.2.2 0 (WordState.mk ['a'] [CharState.Correct] 1) (by decide)
    (by decide)).1


lemma TestEngine.accuracy_100 (e : TestEngine) (now : ℚ)
    (hc : e.correct_chars = 9) (hi : e.incorrect_chars = 0) :
    (e.get_metrics now).accuracy = 100 := by
  show calculate_accuracy e.correct_chars (e.correct_chars + e.incorrect_chars)
    = 100
  rw [hc, hi]
  norm_num [calculate_accuracy]

/-- C4: in Words(count) mode `should_auto_finish` holds exactly when the
current word index has reached `count`; in the Words(3) scenario over
"ala" / "ma" / "kota", typing each word correctly and advancing drives the
state NotStarted → InProgress (first keystroke) → Finished (third advance),
with 9 cumulative correct characters, 0 incorrect, and accuracy 100. -/
theorem C4_words3_scenario :
    (∀ (e : TestEngine) (now : ℚ) (count : Nat),
      e.mode = TestMode.Words count →
      (e.should_auto_finish now = true ↔ count ≤ e.current_word_index)) ∧
    demoE0.state = TestState.NotStarted ∧
    (demoE0.type_char 'a' 0).state = TestState.InProgress ∧
    demoE1.state = TestState.InProgress ∧
    demoE2.state = TestState.InProgress ∧
    demoE3.state = TestState.Finished ∧
    demoE3.current_word_index = 3 ∧
    demoE3.correct_chars = 9 ∧
    demoE3.incorrect_chars = 0 ∧
    (demoE3.get_metrics 1).accuracy = 100 := by
  refine ⟨?_, by decide, by decide, by decide, by decide, by decide,
    by decide, by decide, by decide,
    TestEngine.accuracy_100 demoE3 1 (by decide) (by decide)⟩
  intro e now count hmode
  simp [TestEngine.should_auto_finish, hmode]

/-- Witness for C4's auto-finish predicate on a concrete Words(3) engine. -/
theorem C4_words3_scenario_witness :
    (TestEngine.new (TestMode.Words 3) [['a']]).should_auto_finish 0 = true ↔
      3 ≤ (TestEngine.new (TestMode.Words 3) [['a']]).current_word_index :=
  C4_words3_scenario.1 (TestEngine.new (TestMode.Words 3) [['a']]) 0 3 rfl
